import Mathlib

/-!
Verification development for the candidate ranking engine in
`src/app/lib/ranking.ts` (Smart Suggest weighted ranking algorithm).

Modelling conventions:
- JavaScript strings are modelled as `List Char`; `String.prototype.toLowerCase`
  is modelled character-wise by `Char.toLower` and `String.prototype.trim` by
  dropping whitespace from both ends.
- JavaScript numbers are modelled as `ℚ` (the computations involved are exact
  decimal arithmetic on small values).
- `new Date()` inside `calculateAccountSignals` reads the system clock; it is
  modelled by an explicit `now : ℚ` parameter (milliseconds since the epoch),
  and the optional `created` string field, which the code feeds through
  `new Date(...)` and `getTime()`, is modelled as an optional numeric
  timestamp in milliseconds.
- `Array.prototype.sort` with the comparator `(a, b) => b.confidence - a.confidence`
  is a stable descending sort on the `confidence` key (ECMAScript guarantees
  sort stability); it is modelled by a stable insertion sort on that key.
- JavaScript truthiness of optional string fields (absent or empty string is
  falsy) is modelled explicitly at each use site.
-/

/-- Model of `str.toLowerCase().trim()` step two: remove leading and trailing
whitespace. -/
def trimList (s : List Char) : List Char :=
  ((s.dropWhile Char.isWhitespace).reverse.dropWhile Char.isWhitespace).reverse

/-- Model of `normalizeString`: lower-case then trim. -/
def normalizeString (s : List Char) : List Char :=
  trimList (s.map Char.toLower)

/-- Model of `s.startsWith(p)` on JavaScript strings. -/
def startsWithList (s p : List Char) : Bool :=
  match p, s with
  | [], _ => true
  | _ :: _, [] => false
  | b :: bs, a :: as => a = b && startsWithList as bs

/-- Model of `s.includes(sub)` on JavaScript strings. -/
def containsList : List Char → List Char → Bool
  | [], sub => sub.isEmpty
  | a :: rest, sub => startsWithList (a :: rest) sub || containsList rest sub

/-- Distance of `a :: s` to the second argument, given the distance function
`levS` of `s`; the inner structural recursion of `levenshteinGet`. Note
`levS [] = s.length`, so the base case is the length of `a :: s`. -/
def levAux (a : Char) (levS : List Char → Nat) : List Char → Nat
  | [] => levS [] + 1
  | b :: t =>
    if a = b then levS t
    else 1 + min (levS (b :: t)) (min (levAux a levS t) (levS t))

/-- Model of `levenshtein.get` from the `fast-levenshtein` dependency: the
standard Levenshtein edit distance (written with a nested structural
recursion so that it is kernel-reducible). -/
def levenshteinGet : List Char → List Char → Nat
  | [], t => t.length
  | a :: s, t => levAux a (levenshteinGet s) t

/-- Inner loop of the matching phase of `jaroWinkler`: scan indices
`j, j+1, ...` (`fuel` many) of `longer` for the first unmatched position whose
character equals `c`. Mirrors `for (let j = start; j < end; j++)`. -/
def innerScan (longer : List Char) (lm : List Bool) (c : Char) : Nat → Nat → Option Nat
  | _, 0 => none
  | j, fuel + 1 =>
    if lm.getD j true = false ∧ longer.getD j (Char.ofNat 0) = c then some j
    else innerScan longer lm c (j + 1) fuel

/-- Outer loop of the matching phase of `jaroWinkler`: walk the characters of
`shorter` (with index `i`), updating the two match masks and the match count.
Mirrors `for (let i = 0; i < shorter.length; i++)`. -/
def outerLoop (longer : List Char) (md : Int) :
    List Char → Nat → List Bool → List Bool → Nat → List Bool × List Bool × Nat
  | [], _, sm, lm, m => (sm, lm, m)
  | c :: rest, i, sm, lm, m =>
    let start : Nat := (max 0 ((i : Int) - md)).toNat
    let stop : Nat := (min ((i : Int) + md + 1) (longer.length : Int)).toNat
    match innerScan longer lm c start (stop - start) with
    | some j => outerLoop longer md rest (i + 1) (sm.set i true) (lm.set j true) (m + 1)
    | none => outerLoop longer md rest (i + 1) sm lm m

/-- Model of `while (!longerMatches[k]) k++` with enough fuel to cover the
mask; the source relies on a further `true` entry existing. -/
def nextTrue (lm : List Bool) : Nat → Nat → Nat
  | 0, k => k
  | fuel + 1, k => if lm.getD k false = true then k else nextTrue lm fuel (k + 1)

/-- Transposition-counting loop of `jaroWinkler`, walking the characters of
`shorter` zipped with their match flags, carrying the cursor `k` into `longer`
and the running transposition count. -/
def transLoop (longer : List Char) (lm : List Bool) : List (Char × Bool) → Nat → Nat → Nat
  | [], _, t => t
  | (c, b) :: rest, k, t =>
    if b = true then
      let k2 := nextTrue lm lm.length k
      transLoop longer lm rest (k2 + 1)
        (if longer.getD k2 (Char.ofNat 0) ≠ c then t + 1 else t)
    else transLoop longer lm rest k t

/-- Length of the common initial run of two character lists (stops at the
first mismatch or at the end of either list); the Winkler boost caps it
separately. -/
def commonStart : List Char → List Char → Nat
  | a :: as, b :: bs => if a = b then commonStart as bs + 1 else 0
  | _, _ => 0

/-- Model of the `jaroWinkler` function of `ranking.ts` (the simplified
Jaro-Winkler implementation in the source, including its literal handling of
the match window `floor(longer.length / 2) - 1`, which may be `-1`). -/
def jaroWinkler (s1 s2 : List Char) : ℚ :=
  let longer := if s1.length > s2.length then s1 else s2
  let shorter := if s1.length > s2.length then s2 else s1
  if longer.length = 0 then 1
  else
    let md : Int := ((longer.length / 2 : Nat) : Int) - 1
    let res := outerLoop longer md shorter 0 (List.replicate shorter.length false)
      (List.replicate longer.length false) 0
    let m := res.2.2
    if m = 0 then 0
    else
      let t := transLoop longer res.2.1 (shorter.zip res.1) 0 0
      let jaro : ℚ :=
        ((m : ℚ) / (shorter.length : ℚ) + (m : ℚ) / (longer.length : ℚ) +
          ((m : ℚ) - (t : ℚ) / 2) / (m : ℚ)) / 3
      let pl : ℚ := (min (commonStart s1 s2) (min 4 shorter.length) : ℕ)
      jaro + pl * 0.1 * (1 - jaro)

/-- Model of the `RankingWeights` interface. -/
structure RankingWeights where
  nameSimilarity : ℚ
  accountSignals : ℚ
  keywordHits : ℚ
  groupOverlap : ℚ
  profileCompleteness : ℚ
deriving DecidableEq

/-- Model of `DEFAULT_WEIGHTS`. -/
def DEFAULT_WEIGHTS : RankingWeights :=
  { nameSimilarity := 0.40
    accountSignals := 0.25
    keywordHits := 0.15
    groupOverlap := 0.10
    profileCompleteness := 0.10 }

/-- Model of the `UserCandidate` interface. The optional `created` string,
which the source parses with `new Date(...)` and immediately converts with
`getTime()`, is modelled as an optional numeric timestamp in milliseconds. -/
structure UserCandidate where
  id : Int
  name : List Char
  displayName : List Char
  hasVerifiedBadge : Bool
  created : Option ℚ
  description : Option (List Char)
deriving DecidableEq

/-- Model of the `RankingHints` interface. -/
structure RankingHints where
  keywords : Option (List (List Char))
  groupIds : Option (List (List Char))
deriving DecidableEq

/-- Model of the five-field `signals` record of a `ScoredCandidate`. -/
structure SignalVector where
  nameSimilarity : ℚ
  accountSignals : ℚ
  keywordHits : ℚ
  groupOverlap : ℚ
  profileCompleteness : ℚ
deriving DecidableEq

/-- Model of the `ScoredCandidate` interface. -/
structure ScoredCandidate where
  user : UserCandidate
  confidence : ℤ
  signals : SignalVector
  breakdown : List String
deriving DecidableEq

/-- Model of `Math.round` on a non-negative rational (JavaScript rounds
half-way cases towards positive infinity). -/
def jsRound (x : ℚ) : ℤ := ⌊x + 1 / 2⌋

/-- Fuzzy fallback branch of `calculateNameSimilarity` (the code below the
six tier checks): best Jaro-Winkler similarity against both normalized names,
lifted to at least `0.75` (resp. `0.60`) when the smaller Levenshtein distance
is at most `2` (resp. `3`). -/
def nameFallback (nq nu nd : List Char) : ℚ :=
  let displaySimilarity := jaroWinkler nq nd
  let usernameSimilarity := jaroWinkler nq nu
  let maxSimilarity := max displaySimilarity usernameSimilarity
  let displayDistance := levenshteinGet nq nd
  let usernameDistance := levenshteinGet nq nu
  let minDistance := min displayDistance usernameDistance
  if minDistance ≤ 2 then max maxSimilarity 0.75
  else if minDistance ≤ 3 then max maxSimilarity 0.60
  else maxSimilarity

/-- Model of `calculateNameSimilarity`, tiers first, fuzzy fallback last. -/
def calculateNameSimilarity (query : List Char) (c : UserCandidate) : ℚ :=
  let nq := normalizeString query
  let nu := normalizeString c.name
  let nd := normalizeString c.displayName
  if nd = nq then 1
  else if nu = nq then 0.95
  else if startsWithList nd nq then 0.85
  else if startsWithList nu nq then 0.80
  else if containsList nd nq then 0.70
  else if containsList nu nq then 0.65
  else nameFallback nq nu nd

/-- Model of `calculateAccountSignals`. The source computes
`ageInDays = (now.getTime() - created.getTime()) / (1000*60*60*24)` with the
current clock value `now`; an absent `created` field (JavaScript falsy) takes
the neutral `+0.15` branch. An absent or empty `description` (falsy) adds
nothing. -/
def calculateAccountSignals (now : ℚ) (u : UserCandidate) : ℚ :=
  let s1 : ℚ := if u.hasVerifiedBadge then 0.4 else 0
  let s2 : ℚ := s1 +
    (match u.created with
     | some t =>
       let ageInDays := (now - t) / (1000 * 60 * 60 * 24)
       if ageInDays > 365 * 3 then 0.3
       else if ageInDays > 365 then 0.2
       else if ageInDays > 90 then 0.1
       else 0
     | none => 0.15)
  let s3 : ℚ := s2 +
    (match u.description with
     | some d => if d.length > 10 then 0.3 else if d ≠ [] then 0.15 else 0
     | none => 0)
  min s3 1

/-- Model of `calculateKeywordHits`. `!hints?.keywords || hints.keywords.length === 0`
returns the neutral `0.5`; a falsy `description` (absent or empty) returns `0`;
otherwise the hit ratio is capped at `1`. -/
def calculateKeywordHits (u : UserCandidate) (hints : Option RankingHints) : ℚ :=
  match hints.bind RankingHints.keywords with
  | none => 0.5
  | some kws =>
    if kws.length = 0 then 0.5
    else
      match u.description with
      | none => 0
      | some d =>
        if d = [] then 0
        else
          let normalizedBio := normalizeString d
          let hits := (kws.filter (fun kw => containsList normalizedBio (normalizeString kw))).length
          min ((hits : ℚ) / (kws.length : ℚ)) 1

/-- Model of `calculateGroupOverlap`: always the neutral `0.5`. -/
def calculateGroupOverlap (_hints : Option RankingHints) : ℚ := 0.5

/-- Model of `calculateProfileCompleteness`. The display-name bonus is guarded
by `candidate.displayName && candidate.displayName !== candidate.name`
(truthiness plus a raw, non-normalized comparison); a falsy `description`
contributes nothing. -/
def calculateProfileCompleteness (u : UserCandidate) : ℚ :=
  let s1 : ℚ := if u.displayName ≠ [] ∧ u.displayName ≠ u.name then 0.3 else 0
  let s2 : ℚ := s1 +
    (match u.description with
     | some d =>
       if d = [] then 0
       else if d.length > 50 then 0.4
       else if d.length > 10 then 0.3
       else 0.1
     | none => 0)
  let s3 : ℚ := s2 + (if u.hasVerifiedBadge then 0.3 else 0)
  min s3 1

/-- Scoring of one candidate inside `rankCandidates`: the five signals, the
rounded weighted confidence, and the breakdown tags, in source order. The
keyword tag is guarded by `signals.keywordHits >= 0.5 && hints?.keywords`
(presence of the array, which in JavaScript is truthy even when empty). -/
def scoreCandidate (now : ℚ) (query : List Char) (hints : Option RankingHints)
    (w : RankingWeights) (u : UserCandidate) : ScoredCandidate :=
  let ns := calculateNameSimilarity query u
  let ac := calculateAccountSignals now u
  let kw := calculateKeywordHits u hints
  let go := calculateGroupOverlap hints
  let pc := calculateProfileCompleteness u
  let confidence := jsRound
    ((ns * w.nameSimilarity + ac * w.accountSignals + kw * w.keywordHits +
      go * w.groupOverlap + pc * w.profileCompleteness) * 100)
  let breakdown :=
    (if (0.9 : ℚ) ≤ ns then ["Exact name match"]
     else if (0.8 : ℚ) ≤ ns then ["Strong name similarity"]
     else if (0.6 : ℚ) ≤ ns then ["Moderate name similarity"]
     else []) ++
    (if u.hasVerifiedBadge then ["Verified badge"] else []) ++
    (if (0.7 : ℚ) ≤ ac then ["Established account"] else []) ++
    (if (0.7 : ℚ) ≤ pc then ["Complete profile"] else []) ++
    (if (0.5 : ℚ) ≤ kw ∧ (hints.bind RankingHints.keywords).isSome = true
     then ["Keyword matches"] else [])
  { user := u, confidence := confidence
    signals := ⟨ns, ac, kw, go, pc⟩, breakdown := breakdown }

/-- Stable insertion of a scored candidate into a list, descending on
`confidence`: the inserted element (from earlier in the input) goes before any
later element of equal confidence. -/
def insertDesc (x : ScoredCandidate) : List ScoredCandidate → List ScoredCandidate
  | [] => [x]
  | y :: ys => if y.confidence ≤ x.confidence then x :: y :: ys else y :: insertDesc x ys

/-- Stable descending sort on `confidence`, the model of
`scored.sort((a, b) => b.confidence - a.confidence)` (ECMAScript sorts are
stable and this comparator is a consistent total preorder on the key). -/
def sortByConfidence : List ScoredCandidate → List ScoredCandidate
  | [] => []
  | x :: xs => insertDesc x (sortByConfidence xs)

/-- Model of `rankCandidates`; the `weights` default parameter is modelled by
an `Option` resolved to `DEFAULT_WEIGHTS`. -/
def rankCandidates (now : ℚ) (query : List Char) (candidates : List UserCandidate)
    (hints : Option RankingHints) (weights : Option RankingWeights) : List ScoredCandidate :=
  sortByConfidence (candidates.map (scoreCandidate now query hints (weights.getD DEFAULT_WEIGHTS)))

/-- Model of `getTopSuggestions`: rank, then `slice(0, limit)` (for a natural
`limit` this is `List.take limit`). -/
def getTopSuggestions (now : ℚ) (query : List Char) (candidates : List UserCandidate)
    (limit : Nat) (hints : Option RankingHints) (weights : Option RankingWeights) :
    List ScoredCandidate :=
  (rankCandidates now query candidates hints weights).take limit

/-! ### Lemmas about the stable descending sort -/

theorem insertDesc_perm (x : ScoredCandidate) (l : List ScoredCandidate) :
    List.Perm (insertDesc x l) (x :: l) := by
  induction l with
  | nil => exact List.Perm.refl _
  | cons y ys ih =>
    unfold insertDesc
    split
    · exact List.Perm.refl _
    · exact (ih.cons y).trans (List.Perm.swap x y ys)

theorem sortByConfidence_perm (l : List ScoredCandidate) :
    List.Perm (sortByConfidence l) l := by
  induction l with
  | nil => exact List.Perm.refl _
  | cons x xs ih => exact (insertDesc_perm x (sortByConfidence xs)).trans (ih.cons x)

theorem mem_insertDesc {a x : ScoredCandidate} {l : List ScoredCandidate} :
    a ∈ insertDesc x l ↔ a = x ∨ a ∈ l := by
  rw [(insertDesc_perm x l).mem_iff, List.mem_cons]

theorem pairwise_insertDesc {x : ScoredCandidate} {l : List ScoredCandidate}
    (h : l.Pairwise (fun a b => b.confidence ≤ a.confidence)) :
    (insertDesc x l).Pairwise (fun a b => b.confidence ≤ a.confidence) := by
  induction l with
  | nil => simp [insertDesc]
  | cons y ys ih =>
    rcases List.pairwise_cons.mp h with ⟨hy, hys⟩
    unfold insertDesc
    split
    · next hxy =>
      refine List.pairwise_cons.mpr ⟨?_, h⟩
      intro b hb
      rcases List.mem_cons.mp hb with rfl | hb
      · exact hxy
      · exact le_trans (hy b hb) hxy
    · next hxy =>
      refine List.pairwise_cons.mpr ⟨?_, ih hys⟩
      intro b hb
      rcases mem_insertDesc.mp hb with rfl | hb
      · exact le_of_not_le hxy
      · exact hy b hb

theorem pairwise_sortByConfidence (l : List ScoredCandidate) :
    (sortByConfidence l).Pairwise (fun a b => b.confidence ≤ a.confidence) := by
  induction l with
  | nil => simp [sortByConfidence]
  | cons x xs ih => exact pairwise_insertDesc ih

theorem filter_insertDesc (x : ScoredCandidate) (l : List ScoredCandidate) (k : ℤ) :
    (insertDesc x l).filter (fun s => s.confidence == k) =
      if x.confidence == k then x :: l.filter (fun s => s.confidence == k)
      else l.filter (fun s => s.confidence == k) := by
  induction l with
  | nil => simp [insertDesc, List.filter_cons]
  | cons y ys ih =>
    unfold insertDesc
    split
    · next hxy => simp [List.filter_cons]
    · next hxy =>
      by_cases hxk : x.confidence = k
      · have hyk : ¬ y.confidence = k := by
          intro hy
          exact hxy (by rw [hy, ← hxk])
        simp [List.filter_cons, hyk, ih, hxk]
      · simp [List.filter_cons, ih, hxk]

theorem filter_sortByConfidence (l : List ScoredCandidate) (k : ℤ) :
    (sortByConfidence l).filter (fun s => s.confidence == k) =
      l.filter (fun s => s.confidence == k) := by
  induction l with
  | nil => rfl
  | cons x xs ih =>
    show (insertDesc x (sortByConfidence xs)).filter _ = _
    rw [filter_insertDesc, ih, List.filter_cons]

/-! ### C2, C9: ranker contracts -/

/-- C2: for every clock value, query, candidate list, hints, and weights, the
output of `rankCandidates` is a permutation of the input candidate list (no
candidate dropped or duplicated), its confidence values are non-increasing
from first to last, and candidates of equal confidence keep the relative order
of the scored input list (stability). -/
theorem c2_rank_is_stable_desc_permutation
    (now : ℚ) (query : List Char) (candidates : List UserCandidate)
    (hints : Option RankingHints) (weights : Option RankingWeights) :
    List.Perm ((rankCandidates now query candidates hints weights).map ScoredCandidate.user)
      candidates ∧
    List.Sorted (· ≥ ·)
      ((rankCandidates now query candidates hints weights).map ScoredCandidate.confidence) ∧
    ∀ k : ℤ,
      (rankCandidates now query candidates hints weights).filter (fun s => s.confidence == k) =
        (candidates.map (scoreCandidate now query hints (weights.getD DEFAULT_WEIGHTS))).filter
          (fun s => s.confidence == k) := by
  refine ⟨?_, ?_, ?_⟩
  · have h1 := (sortByConfidence_perm
      (candidates.map (scoreCandidate now query hints (weights.getD DEFAULT_WEIGHTS)))).map
      ScoredCandidate.user
    have h2 : (candidates.map
        (scoreCandidate now query hints (weights.getD DEFAULT_WEIGHTS))).map
        ScoredCandidate.user = candidates := by
      rw [List.map_map]
      exact List.map_id' candidates
    rw [rankCandidates]
    rw [h2] at h1
    exact h1
  · have h := pairwise_sortByConfidence
      (candidates.map (scoreCandidate now query hints (weights.getD DEFAULT_WEIGHTS)))
    rw [rankCandidates]
    rw [List.Sorted, List.pairwise_map]
    exact h
  · intro k
    rw [rankCandidates]
    exact filter_sortByConfidence _ k

/-- C9: `getTopSuggestions` equals `rankCandidates` truncated to the first
`limit` elements, and in particular with limit 3 it returns exactly 3 elements
whenever at least 3 candidates were supplied. -/
theorem c9_topSuggestions_is_rank_truncation
    (now : ℚ) (query : List Char) (candidates : List UserCandidate) (limit : Nat)
    (hints : Option RankingHints) (weights : Option RankingWeights) :
    getTopSuggestions now query candidates limit hints weights =
      (rankCandidates now query candidates hints weights).take limit ∧
    (3 ≤ candidates.length →
      (getTopSuggestions now query candidates 3 hints weights).length = 3) := by
  constructor
  · rfl
  · intro h3
    have hlen : (rankCandidates now query candidates hints weights).length =
        candidates.length := by
      rw [rankCandidates]
      rw [(sortByConfidence_perm _).length_eq, List.length_map]
    show ((rankCandidates now query candidates hints weights).take 3).length = 3
    rw [List.length_take, hlen]
    omega

/-- Witness for C9 at a concrete input with three candidates. -/
theorem c9_topSuggestions_is_rank_truncation_witness :
    getTopSuggestions 0 ['a'] [⟨1, ['a'], ['b'], false, none, none⟩,
        ⟨2, ['c'], ['d'], true, none, none⟩, ⟨3, ['e'], ['f'], false, none, none⟩] 3 none none =
      (rankCandidates 0 ['a'] [⟨1, ['a'], ['b'], false, none, none⟩,
        ⟨2, ['c'], ['d'], true, none, none⟩, ⟨3, ['e'], ['f'], false, none, none⟩]
        none none).take 3 ∧
    (getTopSuggestions 0 ['a'] [⟨1, ['a'], ['b'], false, none, none⟩,
        ⟨2, ['c'], ['d'], true, none, none⟩, ⟨3, ['e'], ['f'], false, none, none⟩] 3
        none none).length = 3 := by
  have h := c9_topSuggestions_is_rank_truncation 0 ['a']
    [⟨1, ['a'], ['b'], false, none, none⟩, ⟨2, ['c'], ['d'], true, none, none⟩,
     ⟨3, ['e'], ['f'], false, none, none⟩] 3 none none
  exact ⟨h.1, h.2 (by decide)⟩

/-! ### C1: determinism and the hidden clock dependence -/

theorem scoreCandidate_clock_free (now now' : ℚ) (query : List Char)
    (hints : Option RankingHints) (w : RankingWeights) (u : UserCandidate)
    (hu : u.created = none) :
    scoreCandidate now query hints w u = scoreCandidate now' query hints w u := by
  have hacc : calculateAccountSignals now u = calculateAccountSignals now' u := by
    unfold calculateAccountSignals
    rw [hu]
  unfold scoreCandidate
  rw [hacc]

/-- C1 counterexample: the claim asserts that two invocations of
`rankCandidates` with identical explicit arguments (query, candidate list,
hints, weights) always yield identical outputs, with no dependence on anything
outside those arguments. The engine, however, reads the system clock through
`new Date()` in `calculateAccountSignals`: with the same explicit arguments
and a candidate carrying a `created` timestamp, two clock values 1200 days
apart produce different outputs. -/
theorem c1_counterexample :
    rankCandidates 0 ['a'] [⟨1, ['a'], ['b'], false, some 0, none⟩] none none ≠
      rankCandidates 103680000000 ['a'] [⟨1, ['a'], ['b'], false, some 0, none⟩] none none := by
  with_unfolding_all decide

/-- C1 amended: the engine has no hidden mutable state, but it does read the
system clock; two invocations of `rankCandidates` (and of `getTopSuggestions`)
with identical explicit arguments yield identical outputs whenever no
candidate carries a `created` timestamp (the only clock-dependent signal), and
in general whenever the clock value is the same. -/
theorem c1_deterministic_given_clock (now now' : ℚ) (query : List Char)
    (candidates : List UserCandidate) (limit : Nat) (hints : Option RankingHints)
    (weights : Option RankingWeights)
    (hc : ∀ u ∈ candidates, u.created = none) :
    rankCandidates now query candidates hints weights =
      rankCandidates now' query candidates hints weights ∧
    getTopSuggestions now query candidates limit hints weights =
      getTopSuggestions now' query candidates limit hints weights := by
  have hmap : candidates.map (scoreCandidate now query hints (weights.getD DEFAULT_WEIGHTS)) =
      candidates.map (scoreCandidate now' query hints (weights.getD DEFAULT_WEIGHTS)) :=
    List.map_congr_left fun u hu => scoreCandidate_clock_free _ _ _ _ _ u (hc u hu)
  have hrank : rankCandidates now query candidates hints weights =
      rankCandidates now' query candidates hints weights := by
    rw [rankCandidates, rankCandidates, hmap]
  exact ⟨hrank, by rw [getTopSuggestions, getTopSuggestions, hrank]⟩

/-- Witness for the amended C1 at a concrete input. -/
theorem c1_deterministic_given_clock_witness :
    (∀ u ∈ [(⟨1, ['a'], ['b'], false, none, none⟩ : UserCandidate)], u.created = none) ∧
    rankCandidates 0 ['a'] [⟨1, ['a'], ['b'], false, none, none⟩] none none =
      rankCandidates 99 ['a'] [⟨1, ['a'], ['b'], false, none, none⟩] none none :=
  ⟨by decide, (c1_deterministic_given_clock 0 99 ['a']
    [⟨1, ['a'], ['b'], false, none, none⟩] 5 none none (by decide)).1⟩

/-! ### C3, C10, C4: the name-similarity tier list -/

theorem startsWithList_nil (s : List Char) : startsWithList s [] = true := by
  cases s <;> rfl

/-- C3: the name-similarity signal is an ordered tier list over the trimmed,
case-folded strings, first matching tier wins (display exact 1.0, primary
exact 0.95, display starts-with 0.85, primary starts-with 0.80, display
contains 0.70, primary contains 0.65, fuzzy fallback otherwise); in
particular, query `robloxuser` against primary name `RobloxUser` and display
name `Player123` scores exactly 0.95. -/
theorem c3_name_similarity_tier_list (query : List Char) (c : UserCandidate) :
    (normalizeString c.displayName = normalizeString query →
      calculateNameSimilarity query c = 1) ∧
    (normalizeString c.displayName ≠ normalizeString query →
      normalizeString c.name = normalizeString query →
      calculateNameSimilarity query c = 0.95) ∧
    (normalizeString c.displayName ≠ normalizeString query →
      normalizeString c.name ≠ normalizeString query →
      startsWithList (normalizeString c.displayName) (normalizeString query) = true →
      calculateNameSimilarity query c = 0.85) ∧
    (normalizeString c.displayName ≠ normalizeString query →
      normalizeString c.name ≠ normalizeString query →
      startsWithList (normalizeString c.displayName) (normalizeString query) = false →
      startsWithList (normalizeString c.name) (normalizeString query) = true →
      calculateNameSimilarity query c = 0.80) ∧
    (normalizeString c.displayName ≠ normalizeString query →
      normalizeString c.name ≠ normalizeString query →
      startsWithList (normalizeString c.displayName) (normalizeString query) = false →
      startsWithList (normalizeString c.name) (normalizeString query) = false →
      containsList (normalizeString c.displayName) (normalizeString query) = true →
      calculateNameSimilarity query c = 0.70) ∧
    (normalizeString c.displayName ≠ normalizeString query →
      normalizeString c.name ≠ normalizeString query →
      startsWithList (normalizeString c.displayName) (normalizeString query) = false →
      startsWithList (normalizeString c.name) (normalizeString query) = false →
      containsList (normalizeString c.displayName) (normalizeString query) = false →
      containsList (normalizeString c.name) (normalizeString query) = true →
      calculateNameSimilarity query c = 0.65) ∧
    (normalizeString c.displayName ≠ normalizeString query →
      normalizeString c.name ≠ normalizeString query →
      startsWithList (normalizeString c.displayName) (normalizeString query) = false →
      startsWithList (normalizeString c.name) (normalizeString query) = false →
      containsList (normalizeString c.displayName) (normalizeString query) = false →
      containsList (normalizeString c.name) (normalizeString query) = false →
      calculateNameSimilarity query c =
        nameFallback (normalizeString query) (normalizeString c.name)
          (normalizeString c.displayName)) ∧
    calculateNameSimilarity "robloxuser".data
      ⟨1, "RobloxUser".data, "Player123".data, false, none, none⟩ = 0.95 := by
  refine ⟨?_, ?_, ?_, ?_, ?_, ?_, ?_, ?_⟩
  · intro h1
    simp [calculateNameSimilarity, h1]
  · intro h1 h2
    simp [calculateNameSimilarity, h1, h2]
  · intro h1 h2 h3
    simp [calculateNameSimilarity, h1, h2, h3]
  · intro h1 h2 h3 h4
    simp [calculateNameSimilarity, h1, h2, h3, h4]
  · intro h1 h2 h3 h4 h5
    simp [calculateNameSimilarity, h1, h2, h3, h4, h5]
  · intro h1 h2 h3 h4 h5 h6
    simp [calculateNameSimilarity, h1, h2, h3, h4, h5, h6]
  · intro h1 h2 h3 h4 h5 h6
    simp [calculateNameSimilarity, h1, h2, h3, h4, h5, h6]
  · with_unfolding_all decide

/-- Witness for C3 at the scenario input (tier 2 fires). -/
theorem c3_name_similarity_tier_list_witness :
    normalizeString ("Player123".data) ≠ normalizeString ("robloxuser".data) ∧
    normalizeString ("RobloxUser".data) = normalizeString ("robloxuser".data) ∧
    calculateNameSimilarity "robloxuser".data
      ⟨1, "RobloxUser".data, "Player123".data, false, none, none⟩ = 0.95 := by
  refine ⟨by with_unfolding_all decide, by with_unfolding_all decide, ?_⟩
  exact (c3_name_similarity_tier_list "robloxuser".data
    ⟨1, "RobloxUser".data, "Player123".data, false, none, none⟩).2.1
    (by with_unfolding_all decide) (by with_unfolding_all decide)

/-- C10: for a query that is empty after normalization the name-similarity
signal is decided entirely by the first three tiers: 1.0 when the normalized
display name is empty, else 0.95 when the normalized primary name is empty,
and otherwise 0.85 (every string starts with the empty string); in every case
the value is one of 1.0, 0.95, 0.85. -/
theorem c10_empty_query_similarity (query : List Char) (c : UserCandidate)
    (hq : normalizeString query = []) :
    calculateNameSimilarity query c =
      (if normalizeString c.displayName = [] then 1
       else if normalizeString c.name = [] then 0.95 else 0.85) ∧
    (calculateNameSimilarity query c = 1 ∨ calculateNameSimilarity query c = 0.95 ∨
      calculateNameSimilarity query c = 0.85) := by
  have hmain : calculateNameSimilarity query c =
      (if normalizeString c.displayName = [] then 1
       else if normalizeString c.name = [] then (0.95 : ℚ) else 0.85) := by
    by_cases hd : normalizeString c.displayName = []
    · simp [calculateNameSimilarity, hq, hd]
    · by_cases hu : normalizeString c.name = []
      · simp [calculateNameSimilarity, hq, hd, hu]
      · simp [calculateNameSimilarity, hq, hd, hu, startsWithList_nil]
  refine ⟨hmain, ?_⟩
  rw [hmain]
  by_cases hd : normalizeString c.displayName = []
  · simp [hd]
  · by_cases hu : normalizeString c.name = []
    · simp [hd, hu]
    · simp [hd, hu]

/-- Witness for C10 at a concrete input (whitespace query, third tier). -/
theorem c10_empty_query_similarity_witness :
    normalizeString [' '] = [] ∧
    calculateNameSimilarity [' '] ⟨1, ['y'], ['x'], false, none, none⟩ =
      (if normalizeString ['x'] = [] then 1
       else if normalizeString ['y'] = [] then 0.95 else 0.85) := by
  refine ⟨by with_unfolding_all decide, ?_⟩
  exact (c10_empty_query_similarity [' '] ⟨1, ['y'], ['x'], false, none, none⟩
    (by with_unfolding_all decide)).1

/-- C4 counterexample: the claim states that a Levenshtein distance of at most
2 between the normalized query and one of the candidate names forces a
name-similarity of at least 0.75. But the contains tier is checked first:
query `ab` against display name `xabx` (distance 2) hits the display-contains
tier and scores exactly 0.70 < 0.75. -/
theorem c4_counterexample :
    levenshteinGet (normalizeString "ab".data) (normalizeString "xabx".data) ≤ 2 ∧
    calculateNameSimilarity "ab".data ⟨1, "zzzzzz".data, "xabx".data, false, none, none⟩
      = 0.70 ∧
    ¬ (0.75 ≤ calculateNameSimilarity "ab".data
      ⟨1, "zzzzzz".data, "xabx".data, false, none, none⟩) := by
  with_unfolding_all decide

/-- C4 amended: when the fuzzy fallback is reached (none of the exact,
starts-with, or contains tiers matched) and the Levenshtein distance between
the normalized query and at least one of the normalized candidate names is at
most 2, the name-similarity signal is at least 0.75, even when the raw
Jaro-Winkler similarity is lower. -/
theorem c4_close_distance_in_fallback (query : List Char) (c : UserCandidate)
    (h1 : normalizeString c.displayName ≠ normalizeString query)
    (h2 : normalizeString c.name ≠ normalizeString query)
    (h3 : startsWithList (normalizeString c.displayName) (normalizeString query) = false)
    (h4 : startsWithList (normalizeString c.name) (normalizeString query) = false)
    (h5 : containsList (normalizeString c.displayName) (normalizeString query) = false)
    (h6 : containsList (normalizeString c.name) (normalizeString query) = false)
    (hd : min (levenshteinGet (normalizeString query) (normalizeString c.displayName))
      (levenshteinGet (normalizeString query) (normalizeString c.name)) ≤ 2) :
    0.75 ≤ calculateNameSimilarity query c := by
  have hfb : calculateNameSimilarity query c =
      nameFallback (normalizeString query) (normalizeString c.name)
        (normalizeString c.displayName) := by
    simp [calculateNameSimilarity, h1, h2, h3, h4, h5, h6]
  rw [hfb, nameFallback]
  simp only [hd, if_pos]
  exact le_max_right _ _

/-- Witness for the amended C4: query `abcd` against primary name `abzd`
(distance 1) reaches the fallback and scores at least 0.75. -/
theorem c4_close_distance_in_fallback_witness :
    min (levenshteinGet (normalizeString "abcd".data) (normalizeString "qqqq".data))
      (levenshteinGet (normalizeString "abcd".data) (normalizeString "abzd".data)) ≤ 2 ∧
    0.75 ≤ calculateNameSimilarity "abcd".data
      ⟨1, "abzd".data, "qqqq".data, false, none, none⟩ := by
  refine ⟨by with_unfolding_all decide, ?_⟩
  exact c4_close_distance_in_fallback "abcd".data
    ⟨1, "abzd".data, "qqqq".data, false, none, none⟩
    (by with_unfolding_all decide) (by with_unfolding_all decide)
    (by with_unfolding_all decide) (by with_unfolding_all decide)
    (by with_unfolding_all decide) (by with_unfolding_all decide)
    (by with_unfolding_all decide)

/-! ### C7: the keyword-matches breakdown tag -/

theorem kwTag_mem_breakdown (now : ℚ) (query : List Char) (hints : Option RankingHints)
    (w : RankingWeights) (u : UserCandidate) :
    ("Keyword matches" ∈ (scoreCandidate now query hints w u).breakdown) ↔
      ((0.5 : ℚ) ≤ calculateKeywordHits u hints ∧
        (hints.bind RankingHints.keywords).isSome = true) := by
  have hval : (scoreCandidate now query hints w u).breakdown =
      (if (0.9 : ℚ) ≤ calculateNameSimilarity query u then ["Exact name match"]
       else if (0.8 : ℚ) ≤ calculateNameSimilarity query u then ["Strong name similarity"]
       else if (0.6 : ℚ) ≤ calculateNameSimilarity query u then ["Moderate name similarity"]
       else []) ++
      (if u.hasVerifiedBadge then ["Verified badge"] else []) ++
      (if (0.7 : ℚ) ≤ calculateAccountSignals now u then ["Established account"] else []) ++
      (if (0.7 : ℚ) ≤ calculateProfileCompleteness u then ["Complete profile"] else []) ++
      (if (0.5 : ℚ) ≤ calculateKeywordHits u hints ∧
          (hints.bind RankingHints.keywords).isSome = true
       then ["Keyword matches"] else []) := rfl
  rw [hval]
  have h1 : "Keyword matches" ∉
      (if (0.9 : ℚ) ≤ calculateNameSimilarity query u then ["Exact name match"]
       else if (0.8 : ℚ) ≤ calculateNameSimilarity query u then ["Strong name similarity"]
       else if (0.6 : ℚ) ≤ calculateNameSimilarity query u then ["Moderate name similarity"]
       else []) := by
    split_ifs <;> simp
  have h2 : "Keyword matches" ∉
      (if u.hasVerifiedBadge then ["Verified badge"] else ([] : List String)) := by
    split_ifs <;> simp
  have h3 : "Keyword matches" ∉
      (if (0.7 : ℚ) ≤ calculateAccountSignals now u
       then ["Established account"] else ([] : List String)) := by
    split_ifs <;> simp
  have h4 : "Keyword matches" ∉
      (if (0.7 : ℚ) ≤ calculateProfileCompleteness u
       then ["Complete profile"] else ([] : List String)) := by
    split_ifs <;> simp
  simp only [List.mem_append]
  constructor
  · rintro ((((hm | hm) | hm) | hm) | hm)
    · exact absurd hm h1
    · exact absurd hm h2
    · exact absurd hm h3
    · exact absurd hm h4
    · by_cases hc : (0.5 : ℚ) ≤ calculateKeywordHits u hints ∧
          (hints.bind RankingHints.keywords).isSome = true
      · exact hc
      · rw [if_neg hc] at hm
        exact absurd hm (List.not_mem_nil _)
  · intro hc
    refine Or.inr ?_
    rw [if_pos hc]
    exact List.mem_singleton_self _

/-- C7 counterexample: the claim says the tag is never emitted when
`hints.keywords` is supplied as an empty sequence. In JavaScript an empty
array is truthy, so `hints?.keywords` passes, the keyword signal is the
neutral 0.5, and the tag is emitted. -/
theorem c7_counterexample :
    (some (⟨some [], none⟩ : RankingHints)).bind RankingHints.keywords = some [] ∧
    "Keyword matches" ∈ (scoreCandidate 0 ['q'] (some ⟨some [], none⟩) DEFAULT_WEIGHTS
      ⟨1, ['a'], ['b'], false, none, none⟩).breakdown ∧
    scoreCandidate 0 ['q'] (some ⟨some [], none⟩) DEFAULT_WEIGHTS
        ⟨1, ['a'], ['b'], false, none, none⟩ ∈
      rankCandidates 0 ['q'] [⟨1, ['a'], ['b'], false, none, none⟩]
        (some ⟨some [], none⟩) none := by
  with_unfolding_all decide

/-- C7 amended: for every scored candidate produced by `rankCandidates`, the
breakdown tag `Keyword matches` is present if and only if the keyword-hit
signal is at least 0.5 and `hints.keywords` was supplied (present, possibly
empty; the code checks only array presence, not non-emptiness). -/
theorem c7_keyword_tag_iff (now : ℚ) (query : List Char) (candidates : List UserCandidate)
    (hints : Option RankingHints) (weights : Option RankingWeights) (s : ScoredCandidate)
    (hs : s ∈ rankCandidates now query candidates hints weights) :
    ("Keyword matches" ∈ s.breakdown) ↔
      ((0.5 : ℚ) ≤ s.signals.keywordHits ∧
        (hints.bind RankingHints.keywords).isSome = true) := by
  have hmem : s ∈ candidates.map
      (scoreCandidate now query hints (weights.getD DEFAULT_WEIGHTS)) :=
    (sortByConfidence_perm _).mem_iff.mp hs
  rcases List.mem_map.mp hmem with ⟨u, _, rfl⟩
  have hsig : (scoreCandidate now query hints (weights.getD DEFAULT_WEIGHTS) u).signals.keywordHits
      = calculateKeywordHits u hints := rfl
  rw [hsig]
  exact kwTag_mem_breakdown now query hints (weights.getD DEFAULT_WEIGHTS) u

/-- Witness for the amended C7 at a concrete ranked candidate. -/
theorem c7_keyword_tag_iff_witness :
    ("Keyword matches" ∈ (scoreCandidate 0 ['q'] (some ⟨some [], none⟩) DEFAULT_WEIGHTS
        ⟨1, ['a'], ['b'], false, none, none⟩).breakdown) ↔
      ((0.5 : ℚ) ≤ (scoreCandidate 0 ['q'] (some ⟨some [], none⟩) DEFAULT_WEIGHTS
        ⟨1, ['a'], ['b'], false, none, none⟩).signals.keywordHits ∧
        ((some (⟨some [], none⟩ : RankingHints)).bind RankingHints.keywords).isSome = true) :=
  c7_keyword_tag_iff 0 ['q'] [⟨1, ['a'], ['b'], false, none, none⟩]
    (some ⟨some [], none⟩) none _ (by with_unfolding_all decide)

/-! ### C8: the display-name completeness bonus -/

/-- C8 counterexample: the claim says two names differing only in case do not
earn the +0.3 distinct-display-name bonus (comparison after normalization).
The code compares the raw strings with `!==`, so primary name `alice` with
display name `Alice` (equal after normalization, no bio, not verified) scores
exactly 0.3. -/
theorem c8_counterexample :
    normalizeString "Alice".data = normalizeString "alice".data ∧
    calculateProfileCompleteness ⟨1, "alice".data, "Alice".data, false, none, none⟩ = 0.3 := by
  with_unfolding_all decide

/-- C8 amended: the +0.3 contribution for a distinct display name is included
exactly when the displayName is non-empty (truthy) and differs from the
primary name as a raw string, with no normalization: names differing only in
case or surrounding whitespace do earn the +0.3. Isolated behaviourally: with
the other two completeness sources switched off (no description, not
verified), the completeness signal is exactly that contribution. -/
theorem c8_display_bonus_raw_comparison (c : UserCandidate)
    (hdesc : c.description = none) (hver : c.hasVerifiedBadge = false) :
    calculateProfileCompleteness c =
      (if c.displayName ≠ [] ∧ c.displayName ≠ c.name then (0.3 : ℚ) else 0) := by
  simp only [calculateProfileCompleteness, hdesc, hver]
  split_ifs <;> first | exact (‹False›).elim | norm_num

/-- Witness for the amended C8 at a concrete input. -/
theorem c8_display_bonus_raw_comparison_witness :
    calculateProfileCompleteness ⟨1, "bob".data, "Robert".data, false, none, none⟩ =
      (if ("Robert".data ≠ ([] : List Char) ∧ "Robert".data ≠ "bob".data)
       then (0.3 : ℚ) else 0) :=
  c8_display_bonus_raw_comparison ⟨1, "bob".data, "Robert".data, false, none, none⟩ rfl rfl

/-! ### Invariants of the Jaro-Winkler matching loops -/

def countTrue : List Bool → Nat
  | [] => 0
  | b :: r => (if b then 1 else 0) + countTrue r

theorem countTrue_le_length (l : List Bool) : countTrue l ≤ l.length := by
  induction l with
  | nil => simp [countTrue]
  | cons b r ih =>
    simp only [countTrue, List.length_cons]
    split <;> omega

theorem countTrue_replicate_false (n : Nat) : countTrue (List.replicate n false) = 0 := by
  induction n with
  | zero => rfl
  | succ n ih => simpa [List.replicate_succ, countTrue] using ih

theorem getD_lt_length_of_ne_default {l : List Bool} {j : Nat}
    (h : l.getD j true = false) : j < l.length := by
  by_contra hc
  rw [List.getD_eq_default _ _ (by omega)] at h
  exact Bool.noConfusion h

theorem countTrue_set_true {l : List Bool} {j : Nat} (h : l.getD j true = false) :
    countTrue (l.set j true) = countTrue l + 1 := by
  induction l generalizing j with
  | nil => exact absurd (getD_lt_length_of_ne_default h) (by simp)
  | cons b r ih =>
    cases j with
    | zero =>
      have hb : b = false := by simpa [List.getD] using h
      subst hb
      simp [List.set, countTrue]
      omega
    | succ j =>
      have h' : r.getD j true = false := by simpa [List.getD] using h
      simp [List.set, countTrue, ih h']
      omega

theorem getD_set_ne {l : List Bool} {i j : Nat} (h : i ≠ j) (x d : Bool) :
    (l.set i x).getD j d = l.getD j d := by
  induction l generalizing i j with
  | nil => simp [List.set]
  | cons b r ih =>
    cases i with
    | zero =>
      cases j with
      | zero => exact absurd rfl h
      | succ j => simp [List.set, List.getD]
    | succ i =>
      cases j with
      | zero => simp [List.set, List.getD]
      | succ j => simpa [List.set, List.getD] using ih (by omega) 

theorem getD_replicate_false {n j : Nat} (h : j < n) :
    (List.replicate n false).getD j true = false := by
  induction n generalizing j with
  | zero => omega
  | succ n ih =>
    cases j with
    | zero => simp [List.replicate_succ, List.getD]
    | succ j => simpa [List.replicate_succ, List.getD] using ih (by omega)

theorem innerScan_some_getD {longer : List Char} {lm : List Bool} {c : Char} :
    ∀ {j fuel j'}, innerScan longer lm c j fuel = some j' → lm.getD j' true = false := by
  intro j fuel
  induction fuel generalizing j with
  | zero => intro j' h; exact Option.noConfusion h
  | succ fuel ih =>
    intro j' h
    rw [innerScan] at h
    split at h
    · next hcond =>
      cases h
      exact hcond.1
    · exact ih h

theorem outerLoop_inv (longer : List Char) (md : Int) :
    ∀ (rest : List Char) (i : Nat) (sm lm : List Bool) (m : Nat),
      countTrue sm = m → countTrue lm = m →
      sm.length = i + rest.length →
      (∀ j, i ≤ j → j < sm.length → sm.getD j true = false) →
      countTrue (outerLoop longer md rest i sm lm m).1 =
          (outerLoop longer md rest i sm lm m).2.2 ∧
        countTrue (outerLoop longer md rest i sm lm m).2.1 =
          (outerLoop longer md rest i sm lm m).2.2 ∧
        (outerLoop longer md rest i sm lm m).1.length = sm.length ∧
        (outerLoop longer md rest i sm lm m).2.1.length = lm.length := by
  intro rest
  induction rest with
  | nil =>
    intro i sm lm m h1 h2 _ _
    exact ⟨h1, h2, rfl, rfl⟩
  | cons c rest ih =>
    intro i sm lm m h1 h2 hlen hfree
    have hilt : i < sm.length := by
      rw [hlen, List.length_cons]
      omega
    rw [outerLoop]
    cases hscan : innerScan longer lm c ((max 0 ((i : Int) - md)).toNat)
        ((min ((i : Int) + md + 1) (longer.length : Int)).toNat -
          (max 0 ((i : Int) - md)).toNat) with
    | none =>
      simp only [hscan]
      exact ih (i + 1) sm lm m h1 h2 (by rw [hlen, List.length_cons]; omega)
        (fun j hj hj2 => hfree j (by omega) hj2)
    | some j =>
      simp only [hscan]
      have hsmi : sm.getD i true = false := hfree i (le_refl i) hilt
      have hlmj : lm.getD j true = false := innerScan_some_getD hscan
      have r1 : countTrue (sm.set i true) = m + 1 := by rw [countTrue_set_true hsmi, h1]
      have r2 : countTrue (lm.set j true) = m + 1 := by rw [countTrue_set_true hlmj, h2]
      have r3 : (sm.set i true).length = (i + 1) + rest.length := by
        rw [List.length_set, hlen, List.length_cons]
        omega
      have r4 : ∀ j', i + 1 ≤ j' → j' < (sm.set i true).length →
          (sm.set i true).getD j' true = false := by
        intro j' hj' hj2
        rw [getD_set_ne (by omega) true true]
        exact hfree j' (by omega) (by rwa [List.length_set] at hj2)
      have h := ih (i + 1) (sm.set i true) (lm.set j true) (m + 1) r1 r2 r3 r4
      refine ⟨h.1, h.2.1, ?_, ?_⟩
      · rw [h.2.2.1, List.length_set]
      · rw [h.2.2.2, List.length_set]

theorem transLoop_le (longer : List Char) (lm : List Bool) :
    ∀ (pairs : List (Char × Bool)) (k t : Nat),
      transLoop longer lm pairs k t ≤ t + countTrue (pairs.map Prod.snd) := by
  intro pairs
  induction pairs with
  | nil => intro k t; simp [transLoop, countTrue]
  | cons p rest ih =>
    intro k t
    obtain ⟨c, b⟩ := p
    cases b with
    | false =>
      have hstep : transLoop longer lm ((c, false) :: rest) k t =
          transLoop longer lm rest k t := rfl
      rw [hstep]
      refine (ih k t).trans ?_
      simp [countTrue]
    | true =>
      have hstep : transLoop longer lm ((c, true) :: rest) k t =
          transLoop longer lm rest (nextTrue lm lm.length k + 1)
            (if longer.getD (nextTrue lm lm.length k) (Char.ofNat 0) ≠ c
             then t + 1 else t) := rfl
      rw [hstep]
      have hcount : countTrue (((c, true) :: rest).map Prod.snd) =
          1 + countTrue (rest.map Prod.snd) := rfl
      rw [hcount]
      split
      · exact (ih _ (t + 1)).trans (by omega)
      · exact (ih _ t).trans (by omega)

theorem countTrue_map_snd_zip : ∀ (a : List Char) (b : List Bool),
    countTrue ((a.zip b).map Prod.snd) ≤ countTrue b := by
  intro a
  induction a with
  | nil => intro b; simp [countTrue]
  | cons x xs ih =>
    intro b
    cases b with
    | nil => simp [countTrue]
    | cons y ys =>
      have key1 : countTrue (((x :: xs).zip (y :: ys)).map Prod.snd) =
          (if y then 1 else 0) + countTrue ((xs.zip ys).map Prod.snd) := rfl
      have key2 : countTrue (y :: ys) = (if y then 1 else 0) + countTrue ys := rfl
      rw [key1, key2]
      exact Nat.add_le_add_left (ih ys) _
theorem jaroWinkler_bounds (s1 s2 : List Char) :
    0 ≤ jaroWinkler s1 s2 ∧ jaroWinkler s1 s2 ≤ 1 := by
  simp only [jaroWinkler]
  set longer := if s1.length > s2.length then s1 else s2 with hlg
  set shorter := if s1.length > s2.length then s2 else s1 with hsh
  by_cases hL : longer.length = 0
  · rw [if_pos hL]
    norm_num
  · rw [if_neg hL]
    set md : Int := ((longer.length / 2 : Nat) : Int) - 1 with hmd
    set res := outerLoop longer md shorter 0 (List.replicate shorter.length false)
      (List.replicate longer.length false) 0 with hres
    by_cases hm : res.2.2 = 0
    · rw [if_pos hm]
      norm_num
    · rw [if_neg hm]
      have inv := outerLoop_inv longer md shorter 0 (List.replicate shorter.length false)
        (List.replicate longer.length false) 0 (countTrue_replicate_false _)
        (countTrue_replicate_false _) (by simp)
        (fun j _ hj2 => getD_replicate_false (by simpa using hj2))
      rw [← hres] at inv
      have hm1 : res.2.2 ≤ shorter.length := by
        have := countTrue_le_length res.1
        rw [inv.1] at this
        rw [inv.2.2.1, List.length_replicate] at this
        exact this
      have hm2 : res.2.2 ≤ longer.length := by
        have := countTrue_le_length res.2.1
        rw [inv.2.1] at this
        rw [inv.2.2.2, List.length_replicate] at this
        exact this
      have ht : transLoop longer res.2.1 (shorter.zip res.1) 0 0 ≤ res.2.2 := by
        refine (transLoop_le longer res.2.1 (shorter.zip res.1) 0 0).trans ?_
        have h1 := countTrue_map_snd_zip shorter res.1
        rw [inv.1] at h1
        omega
      have hmpos : 1 ≤ res.2.2 := Nat.one_le_iff_ne_zero.mpr hm
      -- rational facts
      have hM1 : (1 : ℚ) ≤ (res.2.2 : ℚ) := by exact_mod_cast hmpos
      have hMpos : (0 : ℚ) < (res.2.2 : ℚ) := by linarith
      have hMLS : ((res.2.2 : ℚ)) ≤ (shorter.length : ℚ) := by exact_mod_cast hm1
      have hMLL : ((res.2.2 : ℚ)) ≤ (longer.length : ℚ) := by exact_mod_cast hm2
      have hLS : (0 : ℚ) < (shorter.length : ℚ) := by linarith
      have hLL : (0 : ℚ) < (longer.length : ℚ) := by linarith
      have hT0 : (0 : ℚ) ≤ ((transLoop longer res.2.1 (shorter.zip res.1) 0 0 : ℕ) : ℚ) := by
        positivity
      have hTM : ((transLoop longer res.2.1 (shorter.zip res.1) 0 0 : ℕ) : ℚ) ≤ (res.2.2 : ℚ) := by
        exact_mod_cast ht
      set M : ℚ := (res.2.2 : ℚ) with hM
      set T : ℚ := ((transLoop longer res.2.1 (shorter.zip res.1) 0 0 : ℕ) : ℚ) with hT
      set LS : ℚ := (shorter.length : ℚ) with hLS2
      set LL : ℚ := (longer.length : ℚ) with hLL2
      have ha : (0 : ℚ) ≤ M / LS := by positivity
      have hb : (0 : ℚ) ≤ M / LL := by positivity
      have hc : (0 : ℚ) ≤ (M - T / 2) / M := by
        apply div_nonneg _ (le_of_lt hMpos)
        linarith
      have ha1 : M / LS ≤ 1 := (div_le_one hLS).mpr hMLS
      have hb1 : M / LL ≤ 1 := (div_le_one hLL).mpr hMLL
      have hc1 : (M - T / 2) / M ≤ 1 := (div_le_one hMpos).mpr (by linarith)
      have hj0 : (0 : ℚ) ≤ (M / LS + M / LL + (M - T / 2) / M) / 3 := by positivity
      have hj1 : (M / LS + M / LL + (M - T / 2) / M) / 3 ≤ 1 := by
        rw [div_le_one (by norm_num : (0:ℚ) < 3)]
        linarith
      have hP0 : (0 : ℚ) ≤ ((min (commonStart s1 s2) (min 4 shorter.length) : ℕ) : ℚ) := by
        positivity
      have hP4 : ((min (commonStart s1 s2) (min 4 shorter.length) : ℕ) : ℚ) ≤ 4 := by
        have : (min (commonStart s1 s2) (min 4 shorter.length)) ≤ 4 := by omega
        exact_mod_cast this
      set jaro : ℚ := (M / LS + M / LL + (M - T / 2) / M) / 3 with hjaro
      set P : ℚ := ((min (commonStart s1 s2) (min 4 shorter.length) : ℕ) : ℚ) with hP
      constructor
      · have : (0 : ℚ) ≤ P * 0.1 * (1 - jaro) := by
          apply mul_nonneg
          · apply mul_nonneg hP0
            norm_num
          · linarith
        linarith
      · have hstep : P * 0.1 * (1 - jaro) ≤ 1 * (1 - jaro) := by
          apply mul_le_mul_of_nonneg_right _ (by linarith)
          nlinarith
        nlinarith

/-! ### C5: all five signals lie in the unit interval -/

theorem min_one_mem {x : ℚ} (hx : 0 ≤ x) : 0 ≤ min x 1 ∧ min x 1 ≤ 1 :=
  ⟨le_min hx (by norm_num), min_le_right x 1⟩

theorem nameFallback_mem (nq nu nd : List Char) :
    0 ≤ nameFallback nq nu nd ∧ nameFallback nq nu nd ≤ 1 := by
  have h1 := jaroWinkler_bounds nq nd
  have h2 := jaroWinkler_bounds nq nu
  simp only [nameFallback]
  split_ifs
  · exact ⟨le_trans (by norm_num) (le_max_right _ _), max_le (max_le h1.2 h2.2) (by norm_num)⟩
  · exact ⟨le_trans (by norm_num) (le_max_right _ _), max_le (max_le h1.2 h2.2) (by norm_num)⟩
  · exact ⟨le_trans h1.1 (le_max_left _ _), max_le h1.2 h2.2⟩

theorem calculateNameSimilarity_mem (query : List Char) (c : UserCandidate) :
    0 ≤ calculateNameSimilarity query c ∧ calculateNameSimilarity query c ≤ 1 := by
  have hf := nameFallback_mem (normalizeString query) (normalizeString c.name)
    (normalizeString c.displayName)
  simp only [calculateNameSimilarity]
  split_ifs
  · constructor <;> norm_num
  · constructor <;> norm_num
  · constructor <;> norm_num
  · constructor <;> norm_num
  · constructor <;> norm_num
  · constructor <;> norm_num
  · exact hf

theorem calculateAccountSignals_mem (now : ℚ) (u : UserCandidate) :
    0 ≤ calculateAccountSignals now u ∧ calculateAccountSignals now u ≤ 1 := by
  simp only [calculateAccountSignals]
  apply min_one_mem
  apply add_nonneg
  · apply add_nonneg
    · split <;> norm_num
    · cases u.created with
      | none => norm_num
      | some t => dsimp only; split_ifs <;> norm_num
  · cases u.description with
    | none => norm_num
    | some d => dsimp only; split_ifs <;> norm_num

theorem calculateProfileCompleteness_mem (u : UserCandidate) :
    0 ≤ calculateProfileCompleteness u ∧ calculateProfileCompleteness u ≤ 1 := by
  simp only [calculateProfileCompleteness]
  apply min_one_mem
  apply add_nonneg
  · apply add_nonneg
    · split <;> norm_num
    · cases u.description with
      | none => norm_num
      | some d => dsimp only; split_ifs <;> norm_num
  · split <;> norm_num

theorem calculateKeywordHits_mem (u : UserCandidate) (hints : Option RankingHints) :
    0 ≤ calculateKeywordHits u hints ∧ calculateKeywordHits u hints ≤ 1 := by
  unfold calculateKeywordHits
  cases hk : hints.bind RankingHints.keywords with
  | none =>
    dsimp only
    norm_num
  | some kws =>
    dsimp only
    by_cases hlen : kws.length = 0
    · rw [if_pos hlen]
      norm_num
    · rw [if_neg hlen]
      cases hd : u.description with
      | none =>
        dsimp only
        norm_num
      | some d =>
        dsimp only
        by_cases hde : d = []
        · rw [if_pos hde]
          norm_num
        · rw [if_neg hde]
          apply min_one_mem
          have hpos : (0 : ℚ) < (kws.length : ℚ) := by
            exact_mod_cast Nat.pos_of_ne_zero hlen
          positivity

theorem calculateGroupOverlap_mem (hints : Option RankingHints) :
    0 ≤ calculateGroupOverlap hints ∧ calculateGroupOverlap hints ≤ 1 := by
  rw [calculateGroupOverlap]
  norm_num

theorem jsRound_nonneg {x : ℚ} (h : 0 ≤ x) : 0 ≤ jsRound x := by
  rw [jsRound]
  refine Int.le_floor.mpr ?_
  push_cast
  linarith

theorem jsRound_mono {x y : ℚ} (h : x ≤ y) : jsRound x ≤ jsRound y := by
  exact Int.floor_le_floor (by linarith)

/-- C5 counterexample: the claim bounds the confidence by `100·Σweights`, but
`Math.round` can round up past that bound. With the non-negative weight vector
(1/128, 0, 0, 0, 0) and an exact display-name match, the weighted sum is
100/128 = 0.78125 and the rounded confidence is 1 > 0.78125. -/
theorem c5_counterexample :
    ((scoreCandidate 0 ['a'] none ⟨1/128, 0, 0, 0, 0⟩
        ⟨1, ['a'], ['a'], false, none, none⟩).confidence : ℚ) >
      100 * ((1/128 : ℚ) + 0 + 0 + 0 + 0) ∧
    (scoreCandidate 0 ['a'] none ⟨1/128, 0, 0, 0, 0⟩
      ⟨1, ['a'], ['a'], false, none, none⟩).confidence = 1 := by
  with_unfolding_all decide

/-- C5 amended: for every clock value, query, candidate, hints, and
non-negative weight vector, each of the five computed signals lies in [0,1],
the confidence equals `round((Σ signal_i · weight_i) · 100)`, and the
confidence lies in `[0, round(100·Σweights)]` (rounding can exceed
`100·Σweights` itself by up to one half). -/
theorem c5_signals_unit_confidence_range (now : ℚ) (query : List Char)
    (hints : Option RankingHints) (w : RankingWeights) (u : UserCandidate)
    (h1 : 0 ≤ w.nameSimilarity) (h2 : 0 ≤ w.accountSignals) (h3 : 0 ≤ w.keywordHits)
    (h4 : 0 ≤ w.groupOverlap) (h5 : 0 ≤ w.profileCompleteness) :
    (0 ≤ (scoreCandidate now query hints w u).signals.nameSimilarity ∧
      (scoreCandidate now query hints w u).signals.nameSimilarity ≤ 1) ∧
    (0 ≤ (scoreCandidate now query hints w u).signals.accountSignals ∧
      (scoreCandidate now query hints w u).signals.accountSignals ≤ 1) ∧
    (0 ≤ (scoreCandidate now query hints w u).signals.keywordHits ∧
      (scoreCandidate now query hints w u).signals.keywordHits ≤ 1) ∧
    (0 ≤ (scoreCandidate now query hints w u).signals.groupOverlap ∧
      (scoreCandidate now query hints w u).signals.groupOverlap ≤ 1) ∧
    (0 ≤ (scoreCandidate now query hints w u).signals.profileCompleteness ∧
      (scoreCandidate now query hints w u).signals.profileCompleteness ≤ 1) ∧
    (scoreCandidate now query hints w u).confidence =
      jsRound ((calculateNameSimilarity query u * w.nameSimilarity +
        calculateAccountSignals now u * w.accountSignals +
        calculateKeywordHits u hints * w.keywordHits +
        calculateGroupOverlap hints * w.groupOverlap +
        calculateProfileCompleteness u * w.profileCompleteness) * 100) ∧
    0 ≤ (scoreCandidate now query hints w u).confidence ∧
    (scoreCandidate now query hints w u).confidence ≤
      jsRound ((w.nameSimilarity + w.accountSignals + w.keywordHits + w.groupOverlap +
        w.profileCompleteness) * 100) := by
  have hns := calculateNameSimilarity_mem query u
  have hac := calculateAccountSignals_mem now u
  have hkw := calculateKeywordHits_mem u hints
  have hgo := calculateGroupOverlap_mem hints
  have hpc := calculateProfileCompleteness_mem u
  have hsum0 : 0 ≤ (calculateNameSimilarity query u * w.nameSimilarity +
      calculateAccountSignals now u * w.accountSignals +
      calculateKeywordHits u hints * w.keywordHits +
      calculateGroupOverlap hints * w.groupOverlap +
      calculateProfileCompleteness u * w.profileCompleteness) := by
    have := mul_nonneg hns.1 h1
    have := mul_nonneg hac.1 h2
    have := mul_nonneg hkw.1 h3
    have := mul_nonneg hgo.1 h4
    have := mul_nonneg hpc.1 h5
    linarith
  have hsumw : (calculateNameSimilarity query u * w.nameSimilarity +
      calculateAccountSignals now u * w.accountSignals +
      calculateKeywordHits u hints * w.keywordHits +
      calculateGroupOverlap hints * w.groupOverlap +
      calculateProfileCompleteness u * w.profileCompleteness) ≤
      (w.nameSimilarity + w.accountSignals + w.keywordHits + w.groupOverlap +
        w.profileCompleteness) := by
    have e1 : calculateNameSimilarity query u * w.nameSimilarity ≤ w.nameSimilarity := by
      nlinarith [hns.1, hns.2]
    have e2 : calculateAccountSignals now u * w.accountSignals ≤ w.accountSignals := by
      nlinarith [hac.1, hac.2]
    have e3 : calculateKeywordHits u hints * w.keywordHits ≤ w.keywordHits := by
      nlinarith [hkw.1, hkw.2]
    have e4 : calculateGroupOverlap hints * w.groupOverlap ≤ w.groupOverlap := by
      nlinarith [hgo.1, hgo.2]
    have e5 : calculateProfileCompleteness u * w.profileCompleteness ≤
        w.profileCompleteness := by
      nlinarith [hpc.1, hpc.2]
    linarith
  refine ⟨hns, hac, hkw, hgo, hpc, rfl, ?_, ?_⟩
  · exact jsRound_nonneg (by nlinarith [hsum0])
  · exact jsRound_mono (by nlinarith [hsumw])

/-- Witness for the amended C5 at the default weight vector. -/
theorem c5_signals_unit_confidence_range_witness :
    (0 : ℚ) ≤ DEFAULT_WEIGHTS.nameSimilarity ∧
    0 ≤ (scoreCandidate 0 ['a'] none DEFAULT_WEIGHTS
      ⟨1, ['a'], ['b'], false, none, none⟩).confidence ∧
    (scoreCandidate 0 ['a'] none DEFAULT_WEIGHTS
        ⟨1, ['a'], ['b'], false, none, none⟩).confidence ≤
      jsRound ((DEFAULT_WEIGHTS.nameSimilarity + DEFAULT_WEIGHTS.accountSignals +
        DEFAULT_WEIGHTS.keywordHits + DEFAULT_WEIGHTS.groupOverlap +
        DEFAULT_WEIGHTS.profileCompleteness) * 100) := by
  have h := c5_signals_unit_confidence_range 0 ['a'] none DEFAULT_WEIGHTS
    ⟨1, ['a'], ['b'], false, none, none⟩ (by with_unfolding_all decide)
    (by with_unfolding_all decide) (by with_unfolding_all decide)
    (by with_unfolding_all decide) (by with_unfolding_all decide)
  exact ⟨by with_unfolding_all decide, h.2.2.2.2.2.2.1, h.2.2.2.2.2.2.2⟩

/-! ### C6 infrastructure -/

def maskUpTo (n i : Nat) : List Bool :=
  List.replicate i true ++ List.replicate (n - i) false

theorem getD_replicate_any {b d : Bool} : ∀ {n j : Nat}, j < n →
    (List.replicate n b).getD j d = b := by
  intro n
  induction n with
  | zero => intro j h; omega
  | succ n ih =>
    intro j h
    cases j with
    | zero => simp [List.replicate_succ, List.getD]
    | succ j => simpa [List.replicate_succ, List.getD] using ih (by omega)

theorem maskUpTo_getD_lt {n i j : Nat} (h : j < i) :
    (maskUpTo n i).getD j true = true := by
  rw [maskUpTo]
  rw [List.getD_append _ _ _ _ (by simpa using h)]
  exact getD_replicate_any h

theorem maskUpTo_getD_ge {n i j : Nat} (h1 : i ≤ j) (h2 : j < n) :
    (maskUpTo n i).getD j true = false := by
  rw [maskUpTo]
  rw [List.getD_append_right _ _ _ _ (by simpa using h1)]
  rw [List.length_replicate]
  exact getD_replicate_any (by omega)

theorem maskUpTo_zero (n : Nat) : maskUpTo n 0 = List.replicate n false := by
  simp [maskUpTo]

theorem maskUpTo_full (n : Nat) : maskUpTo n n = List.replicate n true := by
  simp [maskUpTo]

theorem maskUpTo_set : ∀ (i n : Nat), i < n →
    (maskUpTo n i).set i true = maskUpTo n (i + 1) := by
  intro i
  induction i with
  | zero =>
    intro n h
    cases n with
    | zero => omega
    | succ n =>
      simp [maskUpTo, List.replicate_succ]
  | succ i ih =>
    intro n h
    cases n with
    | zero => omega
    | succ n =>
      have hstep : maskUpTo (n + 1) (i + 1) = true :: maskUpTo n i := by
        simp [maskUpTo, List.replicate_succ]
      have hstep2 : maskUpTo (n + 1) (i + 2) = true :: maskUpTo n (i + 1) := by
        simp [maskUpTo, List.replicate_succ]
      rw [hstep, hstep2, List.set_cons_succ, ih n (by omega)]

theorem innerScan_finds {longer : List Char} {lm : List Bool} {c : Char} :
    ∀ {fuel start i : Nat}, start ≤ i → i < start + fuel →
    (∀ j, start ≤ j → j < i → lm.getD j true = true) →
    lm.getD i true = false → longer.getD i (Char.ofNat 0) = c →
    innerScan longer lm c start fuel = some i := by
  intro fuel
  induction fuel with
  | zero => intro start i h1 h2; omega
  | succ fuel ih =>
    intro start i h1 h2 hprev hcur hchar
    rw [innerScan]
    by_cases hsi : start = i
    · subst hsi
      rw [if_pos ⟨hcur, hchar⟩]
    · have hstart : lm.getD start true = true := hprev start le_rfl (by omega)
      rw [if_neg (by rw [hstart]; simp)]
      exact ih (by omega) (by omega) (fun j ha hb => hprev j (by omega) hb) hcur hchar

theorem getD_of_drop_cons : ∀ (l : List Char) (k : Nat) (c : Char) (rest : List Char),
    l.drop k = c :: rest → l.getD k (Char.ofNat 0) = c := by
  intro l
  induction l with
  | nil => intro k c rest h; simp at h
  | cons x xs ih =>
    intro k c rest h
    cases k with
    | zero =>
      simp only [List.drop_zero] at h
      cases h
      rfl
    | succ k =>
      simp only [List.drop_succ_cons] at h
      simpa [List.getD] using ih k c rest h

theorem drop_cons_succ : ∀ (l : List Char) (k : Nat) (c : Char) (rest : List Char),
    l.drop k = c :: rest → l.drop (k + 1) = rest := by
  intro l k c rest h
  have h2 : (l.drop k).drop 1 = rest := by rw [h]; rfl
  rw [List.drop_drop] at h2
  simpa using h2

theorem nextTrue_here {lm : List Bool} {k : Nat} (h : lm.getD k false = true) :
    ∀ {fuel : Nat}, 0 < fuel → nextTrue lm fuel k = k := by
  intro fuel hf
  cases fuel with
  | zero => omega
  | succ fuel => rw [nextTrue, if_pos h]

theorem transLoop_replicate_true (longer : List Char) (n : Nat) (_hn : longer.length = n) :
    ∀ (s2 : List Char) (k t : Nat), k + s2.length = n → longer.drop k = s2 →
    transLoop longer (List.replicate n true) (s2.zip (List.replicate s2.length true)) k t
      = t := by
  intro s2
  induction s2 with
  | nil => intro k t _ _; rfl
  | cons c rest ih =>
    intro k t hk hdrop
    have hkn : k < n := by
      simp only [List.length_cons] at hk
      omega
    have hlm : (List.replicate n true).getD k false = true := getD_replicate_any hkn
    have hlen : (List.replicate n true).length = n := List.length_replicate n true
    have hzip : (c :: rest).zip (List.replicate (c :: rest).length true) =
        (c, true) :: rest.zip (List.replicate rest.length true) := rfl
    rw [hzip]
    have hstep : transLoop longer (List.replicate n true)
        ((c, true) :: rest.zip (List.replicate rest.length true)) k t =
        transLoop longer (List.replicate n true) (rest.zip (List.replicate rest.length true))
          (nextTrue (List.replicate n true) (List.replicate n true).length k + 1)
          (if longer.getD (nextTrue (List.replicate n true)
              (List.replicate n true).length k) (Char.ofNat 0) ≠ c
           then t + 1 else t) := rfl
    rw [hstep]
    have hnt : nextTrue (List.replicate n true) (List.replicate n true).length k = k := by
      apply nextTrue_here hlm
      rw [hlen]
      omega
    rw [hnt]
    have hchar : longer.getD k (Char.ofNat 0) = c := getD_of_drop_cons longer k c rest hdrop
    rw [if_neg (not_not_intro hchar)]
    exact ih (k + 1) t (by simp only [List.length_cons] at hk; omega)
      (drop_cons_succ longer k c rest hdrop)

theorem outerLoop_self (s : List Char) (md : Int) (hmd : 0 ≤ md) (n : Nat)
    (hn : s.length = n) :
    ∀ (rest : List Char) (k : Nat), k + rest.length = n → s.drop k = rest →
    outerLoop s md rest k (maskUpTo n k) (maskUpTo n k) k =
      (List.replicate n true, List.replicate n true, n) := by
  intro rest
  induction rest with
  | nil =>
    intro k hk _
    have hkn : k = n := by simpa using hk
    subst hkn
    rw [outerLoop, maskUpTo_full]
  | cons c rest ih =>
    intro k hk hdrop
    have hkn : k < n := by
      simp only [List.length_cons] at hk
      omega
    rw [outerLoop]
    have hscan : innerScan s (maskUpTo n k) c ((max 0 ((k : Int) - md)).toNat)
        ((min ((k : Int) + md + 1) (s.length : Int)).toNat -
          (max 0 ((k : Int) - md)).toNat) = some k := by
      have hstart : (max 0 ((k : Int) - md)).toNat ≤ k := by omega
      have hstop : k < (min ((k : Int) + md + 1) (s.length : Int)).toNat := by
        rw [hn]
        omega
      apply innerScan_finds hstart (by omega)
        (fun j ha hb => maskUpTo_getD_lt hb)
        (maskUpTo_getD_ge le_rfl hkn)
        (getD_of_drop_cons s k c rest hdrop)
    simp only [hscan]
    rw [maskUpTo_set k n hkn]
    exact ih (k + 1) (by simp only [List.length_cons] at hk; omega)
      (drop_cons_succ s k c rest hdrop)

/-- C6 amended: the Jaro-Winkler similarity of every string of length at
least 2 against itself equals 1.0. (For a single-character string the match
window `floor(1/2) - 1 = -1` is empty, no character matches, and the result
is 0, refuting the original claim for non-empty strings in general.) -/
theorem c6_jaroWinkler_self_eq_one {s : List Char} (h2 : 2 ≤ s.length) :
    jaroWinkler s s = 1 := by
  simp only [jaroWinkler, gt_iff_lt, lt_irrefl, if_false]
  have hn0 : ¬ s.length = 0 := by omega
  rw [if_neg hn0]
  have hmd : (0 : Int) ≤ ((s.length / 2 : Nat) : Int) - 1 := by
    have : 1 ≤ s.length / 2 := by omega
    omega
  have houter := outerLoop_self s (((s.length / 2 : Nat) : Int) - 1) hmd s.length rfl s 0
    (by omega) (by simp)
  rw [maskUpTo_zero] at houter
  rw [houter]
  simp only []
  have hm0 : ¬ (s.length = 0) := hn0
  rw [if_neg hn0]
  have htrans := transLoop_replicate_true s s.length rfl s 0 0 (by omega) (by simp)
  rw [htrans]
  have hq : ((s.length : ℚ)) ≠ 0 := by
    exact_mod_cast hn0
  field_simp
  ring

/-- C6 counterexample: the claim asserts Jaro-Winkler of every non-empty
string against itself is 1.0, but for the single-character string `a` the
implementation computes an empty match window and returns 0. -/
theorem c6_counterexample : jaroWinkler ['a'] ['a'] = 0 ∧ jaroWinkler ['a'] ['a'] ≠ 1 := by
  with_unfolding_all decide

/-- Witness for the amended C6 at the concrete string `ab`. -/
theorem c6_jaroWinkler_self_eq_one_witness :
    2 ≤ (['a', 'b'] : List Char).length ∧ jaroWinkler ['a', 'b'] ['a', 'b'] = 1 :=
  ⟨by decide, c6_jaroWinkler_self_eq_one (by decide)⟩
